import Mathlib

/-!
Shallow embedding of the "anxiety" single-queue I/O scheduler
(`block/anxiety-iosched.c`) and proofs of its specified properties.

The scheduler keeps two FIFO lists of requests, indexed by the request
direction (`SYNC = READ = 0`, `ASYNC = WRITE = 1`), plus a `sync_ratio`
tunable (a `uint8`, default 4).  `anxiety_dispatch` pops up to
`sync_ratio` requests from the head of the sync list, then one request
from the head of the async list, handing each to the downstream elevator
via `elv_dispatch_sort`; here the downstream sink is modelled as the list
of emitted requests, in submission order.
-/

/-- The two traffic classes.  In the C source these are the array indices
`SYNC = 0` and `ASYNC = 1`; `anxiety_add_request` indexes the array with
`rq_data_dir(rq)` (`READ = 0`, `WRITE = 1`), so the class of a request is
exactly its data direction. -/
inductive Dir where
  | sync : Dir
  | async : Dir
deriving DecidableEq, Repr

/-- One I/O request: opaque to the scheduler apart from its identity and
its data direction (`rq_data_dir`). -/
structure Request where
  id : Nat
  dir : Dir
deriving DecidableEq, Repr

/-- `struct anxiety_data`: the two class queues (`queue[SYNC]`,
`queue[ASYNC]`, each a `list_head` FIFO), the unused `contig_syncs`
counter, and the `sync_ratio` tunable (`uint8`, so a value in 0..255). -/
structure AnxietyData where
  syncQ : List Request
  asyncQ : List Request
  contig_syncs : Nat
  sync_ratio : Nat
deriving DecidableEq, Repr

/-- The queue that holds requests of a given direction,
`adata->queue[dir]`. -/
def queueOf (d : AnxietyData) : Dir → List Request
  | Dir.sync => d.syncQ
  | Dir.async => d.asyncQ

/-- `anxiety_can_dispatch`: true when either class queue is non-empty. -/
def anxiety_can_dispatch (d : AnxietyData) : Bool :=
  !d.syncQ.isEmpty || !d.asyncQ.isEmpty

/-- `anxiety_add_request`: append the request at the tail of
`queue[rq_data_dir(rq)]` (`list_add_tail`). -/
def anxiety_add_request (d : AnxietyData) (rq : Request) : AnxietyData :=
  match rq.dir with
  | Dir.sync => { d with syncQ := d.syncQ ++ [rq] }
  | Dir.async => { d with asyncQ := d.asyncQ ++ [rq] }

/-- `anxiety_merged_requests`: `list_del_init(&next->queuelist)` — the
request being absorbed is unlinked from whichever class queue currently
holds it (a request is linked into at most one list, so erasing it from
both models the single `list_del_init`). -/
def anxiety_merged_requests (d : AnxietyData) (next : Request) : AnxietyData :=
  { d with syncQ := d.syncQ.erase next, asyncQ := d.asyncQ.erase next }

/-- The sync batch loop of `anxiety_dispatch`, exactly as written in the
source: `for (batched = 0; batched < adata->sync_ratio; batched++)` runs a
fixed `sync_ratio` iterations; each iteration checks
`!list_empty(&adata->queue[SYNC])` and, when non-empty, pops the head and
dispatches it, and when empty does nothing (the loop keeps running).
Returns (emitted requests in order, remaining sync queue). -/
def syncBatchFixed : Nat → List Request → List Request × List Request
  | 0, q => ([], q)
  | n + 1, q =>
    match q with
    | [] =>
      let p := syncBatchFixed n []
      p
    | r :: rest =>
      let p := syncBatchFixed n rest
      (r :: p.1, p.2)

/-- Pop the head of a list, if any: models the single
`__anxiety_dispatch(q, rq_entry_fifo(head.next))` guarded by
`!list_empty`.  Returns (emitted requests, remaining queue). -/
def popHead : List Request → List Request × List Request
  | [] => ([], [])
  | a :: rest => ([a], rest)

/-- Result of one `anxiety_dispatch` call: the new scheduler state, the
requests forwarded to the sink in submission order, and the C `int`
return value (0 or 1). -/
structure DispatchResult where
  state : AnxietyData
  emitted : List Request
  ret : Nat
deriving DecidableEq, Repr

/-- `anxiety_dispatch`: if both queues are empty return 0; otherwise run
the fixed-count sync batch, then pop at most one async request, and
return 1. -/
def anxiety_dispatch (d : AnxietyData) : DispatchResult :=
  if d.syncQ.isEmpty && d.asyncQ.isEmpty then
    ⟨d, [], 0⟩
  else
    let sp := syncBatchFixed d.sync_ratio d.syncQ
    let ap := popHead d.asyncQ
    ⟨{ d with syncQ := sp.2, asyncQ := ap.2 }, sp.1 ++ ap.1, 1⟩

/-- `anxiety_former_request`: if `rq->queuelist.prev` is the list head of
`queue[rq_data_dir(rq)]` return NULL, else the previous entry.  For a
request linked at (first) index `i` of its class queue, the predecessor
link points at the head sentinel exactly when `i = 0`. -/
def anxiety_former_request (d : AnxietyData) (rq : Request) : Option Request :=
  let q := queueOf d rq.dir
  match q.indexOf rq with
  | 0 => none
  | Nat.succ i => q[i]?

/-- `anxiety_latter_request`: if `rq->queuelist.next` is the list head of
`queue[rq_data_dir(rq)]` return NULL, else the next entry.  For a request
linked at (first) index `i` of its class queue of length `n`, the
successor link points at the head sentinel exactly when `i = n - 1`. -/
def anxiety_latter_request (d : AnxietyData) (rq : Request) : Option Request :=
  let q := queueOf d rq.dir
  if q.indexOf rq + 1 < q.length then q[q.indexOf rq + 1]? else none

/-- Value of a decimal digit character. -/
def decDigitVal? (c : Char) : Option Nat :=
  if '0' ≤ c ∧ c ≤ '9' then some (c.toNat - '0'.toNat) else none

/-- Value of a hexadecimal digit character. -/
def hexDigitVal? (c : Char) : Option Nat :=
  if '0' ≤ c ∧ c ≤ '9' then some (c.toNat - '0'.toNat)
  else if 'a' ≤ c ∧ c ≤ 'f' then some (c.toNat - 'a'.toNat + 10)
  else if 'A' ≤ c ∧ c ≤ 'F' then some (c.toNat - 'A'.toNat + 10)
  else none

/-- Accumulate a non-empty digit string in the given base; `none` on an
empty string or any non-digit character. -/
def digitsVal? (base : Nat) (dv : Char → Option Nat) : List Char → Option Nat
  | [] => none
  | cs => cs.foldlM (fun acc c => (dv c).map fun v => acc * base + v) 0

/-- Modelled from the spec: the kernel's `kstrtou8` parser (in
`lib/kstrtox.c`, outside the provided source tree), as the spec describes
the attribute write: it "accepts a decimal (optionally `0x`-prefixed hex)
string in `[0,255]`; any other input is rejected".  Returns the parsed
value, or `none` for non-numeric input or a value outside 0..255. -/
def kstrtou8 (s : String) : Option Nat :=
  let n? :=
    match s.data with
    | '0' :: 'x' :: rest => digitsVal? 16 hexDigitVal? rest
    | '0' :: 'X' :: rest => digitsVal? 16 hexDigitVal? rest
    | cs => digitsVal? 10 decDigitVal? cs
  match n? with
  | some n => if n ≤ 255 then some n else none
  | none => none

/-- `anxiety_sync_ratio_store`: parse the written text with `kstrtou8`;
on success the parsed value replaces `sync_ratio` and the write succeeds
(returns `count`, modelled as `true`); on failure the negative error code
is returned (modelled as `false`) and `sync_ratio` keeps its prior value
(`kstrtou8` writes its output only on success). -/
def anxiety_sync_ratio_store (d : AnxietyData) (page : String) :
    AnxietyData × Bool :=
  match kstrtou8 page with
  | some v => ({ d with sync_ratio := v }, true)
  | none => (d, false)

/-- `anxiety_sync_ratio_show`: the decimal value of `sync_ratio` followed
by a newline. -/
def anxiety_sync_ratio_show (d : AnxietyData) : String :=
  toString d.sync_ratio ++ "\n"

/-- `anxiety_init_queue` state initialization: both queues empty,
`contig_syncs = 0`, `sync_ratio = DEFAULT_SYNC_RATIO = 4`. -/
def anxiety_init_data : AnxietyData :=
  ⟨[], [], 0, 4⟩

/-- The early-exit variant of the sync batch loop, following the spec's
words: "implementers should exit the loop early once the queue empties,
rather than iterate uselessly".  It stops as soon as the queue is empty
instead of running the remaining iterations; compared against
`syncBatchFixed`, which is the loop as written in the source. -/
def syncBatchEarly : Nat → List Request → List Request × List Request
  | 0, q => ([], q)
  | _ + 1, [] => ([], [])
  | n + 1, r :: rest =>
    let p := syncBatchEarly n rest
    (r :: p.1, p.2)

/-- `anxiety_dispatch` with the early-exit sync batch loop in place of
the fixed-count one; otherwise identical. -/
def anxiety_dispatch_early (d : AnxietyData) : DispatchResult :=
  if d.syncQ.isEmpty && d.asyncQ.isEmpty then
    ⟨d, [], 0⟩
  else
    let sp := syncBatchEarly d.sync_ratio d.syncQ
    let ap := popHead d.asyncQ
    ⟨{ d with syncQ := sp.2, asyncQ := ap.2 }, sp.1 ++ ap.1, 1⟩

/-- Enqueue a list of requests in order (`anxiety_add_request` for
each). -/
def enqueueAll (d : AnxietyData) (rs : List Request) : AnxietyData :=
  rs.foldl anxiety_add_request d

/-- Iterate `anxiety_dispatch` `k` times, concatenating the emissions in
submission order. -/
def dispatchN : Nat → AnxietyData → AnxietyData × List Request
  | 0, d => (d, [])
  | k + 1, d =>
    let r := anxiety_dispatch d
    let p := dispatchN k r.state
    (p.1, r.emitted ++ p.2)

/-- One host-visible scheduler operation: enqueue, dispatch, merge
removal, or a ratio-attribute write. -/
inductive SchedOp where
  | add : Request → SchedOp
  | dispatchOne : SchedOp
  | merge : Request → SchedOp
  | store : String → SchedOp
deriving DecidableEq, Repr

/-- Run one operation, returning the new state and the requests it
forwarded to the sink. -/
def stepOp (d : AnxietyData) : SchedOp → AnxietyData × List Request
  | SchedOp.add rq => (anxiety_add_request d rq, [])
  | SchedOp.dispatchOne =>
      ((anxiety_dispatch d).state, (anxiety_dispatch d).emitted)
  | SchedOp.merge rq => (anxiety_merged_requests d rq, [])
  | SchedOp.store s => ((anxiety_sync_ratio_store d s).1, [])

/-- Run a list of operations, concatenating all sink emissions in
order. -/
def runOps (d : AnxietyData) : List SchedOp → AnxietyData × List Request
  | [] => (d, [])
  | op :: ops =>
    let p := stepOp d op
    let q := runOps p.1 ops
    (q.1, p.2 ++ q.2)

/-! ## Basic lemmas about the dispatch primitives -/

/-- The fixed-count sync batch loop takes the first `n` requests and
leaves the rest. -/
theorem syncBatchFixed_eq (n : Nat) (q : List Request) :
    syncBatchFixed n q = (q.take n, q.drop n) := by
  induction n generalizing q with
  | zero => simp [syncBatchFixed]
  | succ n ih =>
    cases q with
    | nil => simp [syncBatchFixed, ih]
    | cons r rest => simp [syncBatchFixed, ih]

/-- Popping the head takes the first request and leaves the tail. -/
theorem popHead_eq (q : List Request) :
    popHead q = (q.take 1, q.drop 1) := by
  cases q <;> simp [popHead]

/-- `anxiety_dispatch` in closed form when some queue is non-empty. -/
theorem anxiety_dispatch_eq_of_ne (d : AnxietyData)
    (h : ¬(d.syncQ = [] ∧ d.asyncQ = [])) :
    anxiety_dispatch d =
      ⟨{ d with syncQ := d.syncQ.drop d.sync_ratio, asyncQ := d.asyncQ.drop 1 },
       d.syncQ.take d.sync_ratio ++ d.asyncQ.take 1, 1⟩ := by
  have hb : (d.syncQ.isEmpty && d.asyncQ.isEmpty) = false := by
    rcases Decidable.em (d.syncQ = []) with hs | hs <;>
      rcases Decidable.em (d.asyncQ = []) with ha | ha <;>
      simp_all [List.isEmpty_iff]
  simp [anxiety_dispatch, hb, syncBatchFixed_eq, popHead_eq]

/-! ## Claim theorems -/

/-- C1: with `sync_ratio = 2`, after enqueuing sync requests S1, S2, S3
in that order and async request A1, one dispatch call forwards exactly
S1, S2, A1 to the sink in that order, leaving the sync queue `[S3]` and
the async queue empty. -/
theorem anxiety_scenario_end_to_end :
    anxiety_dispatch
      (anxiety_add_request
        (anxiety_add_request
          (anxiety_add_request
            (anxiety_add_request { anxiety_init_data with sync_ratio := 2 }
              ⟨1, Dir.sync⟩)
            ⟨2, Dir.sync⟩)
          ⟨3, Dir.sync⟩)
        ⟨4, Dir.async⟩) =
      ⟨⟨[⟨3, Dir.sync⟩], [], 0, 2⟩,
       [⟨1, Dir.sync⟩, ⟨2, Dir.sync⟩, ⟨4, Dir.async⟩], 1⟩ := by
  decide

/-- C2: with `sync_ratio = N`, at least `N` requests in the sync queue
and a non-empty async queue, one dispatch emits exactly `N` sync
requests followed by exactly one async request, in order; the sync queue
keeps its remaining requests in order and the async queue loses exactly
its head. -/
theorem anxiety_batch_shape (d : AnxietyData) (N : Nat)
    (hr : d.sync_ratio = N) (hn : N ≤ d.syncQ.length) (ha : d.asyncQ ≠ []) :
    (anxiety_dispatch d).emitted = d.syncQ.take N ++ d.asyncQ.take 1 ∧
    (d.syncQ.take N).length = N ∧
    (d.asyncQ.take 1).length = 1 ∧
    (anxiety_dispatch d).state.syncQ = d.syncQ.drop N ∧
    (anxiety_dispatch d).state.asyncQ = d.asyncQ.tail := by
  have h : ¬(d.syncQ = [] ∧ d.asyncQ = []) := fun hc => ha hc.2
  rw [anxiety_dispatch_eq_of_ne d h]
  refine ⟨by simp [hr], by simp [hn], ?_, by simp [hr], by simp [List.drop_one]⟩
  cases hA : d.asyncQ with
  | nil => exact absurd hA ha
  | cons a rest => simp

/-- C2 witness at a concrete input. -/
theorem anxiety_batch_shape_witness :
    (2 : Nat) ≤ ([⟨1, Dir.sync⟩, ⟨2, Dir.sync⟩, ⟨3, Dir.sync⟩] :
        List Request).length ∧
    ((anxiety_dispatch ⟨[⟨1, Dir.sync⟩, ⟨2, Dir.sync⟩, ⟨3, Dir.sync⟩],
        [⟨4, Dir.async⟩], 0, 2⟩).emitted =
      ([⟨1, Dir.sync⟩, ⟨2, Dir.sync⟩, ⟨3, Dir.sync⟩] :
        List Request).take 2 ++
        ([⟨4, Dir.async⟩] : List Request).take 1 ∧
    (([⟨1, Dir.sync⟩, ⟨2, Dir.sync⟩, ⟨3, Dir.sync⟩] :
        List Request).take 2).length = 2 ∧
    (([⟨4, Dir.async⟩] : List Request).take 1).length = 1 ∧
    (anxiety_dispatch ⟨[⟨1, Dir.sync⟩, ⟨2, Dir.sync⟩, ⟨3, Dir.sync⟩],
        [⟨4, Dir.async⟩], 0, 2⟩).state.syncQ =
      ([⟨1, Dir.sync⟩, ⟨2, Dir.sync⟩, ⟨3, Dir.sync⟩] :
        List Request).drop 2 ∧
    (anxiety_dispatch ⟨[⟨1, Dir.sync⟩, ⟨2, Dir.sync⟩, ⟨3, Dir.sync⟩],
        [⟨4, Dir.async⟩], 0, 2⟩).state.asyncQ =
      ([⟨4, Dir.async⟩] : List Request).tail) :=
  ⟨by decide,
   anxiety_batch_shape ⟨[⟨1, Dir.sync⟩, ⟨2, Dir.sync⟩, ⟨3, Dir.sync⟩],
     [⟨4, Dir.async⟩], 0, 2⟩ 2 rfl (by decide) (by decide)⟩

/-- C4: dispatch on a scheduler with both class queues empty returns 0
(false), forwards nothing to the sink, and leaves the whole state
(queues, `sync_ratio`, `contig_syncs`) unchanged. -/
theorem anxiety_dispatch_empty_noop (d : AnxietyData)
    (hs : d.syncQ = []) (ha : d.asyncQ = []) :
    anxiety_dispatch d = ⟨d, [], 0⟩ := by
  simp [anxiety_dispatch, hs, ha]

/-- C4 witness at the freshly initialized scheduler. -/
theorem anxiety_dispatch_empty_noop_witness :
    anxiety_init_data.syncQ = [] ∧ anxiety_init_data.asyncQ = [] ∧
    anxiety_dispatch anxiety_init_data = ⟨anxiety_init_data, [], 0⟩ :=
  ⟨rfl, rfl, anxiety_dispatch_empty_noop anxiety_init_data rfl rfl⟩

/-- C5: writing "300" to the ratio attribute fails and leaves
`sync_ratio` at its prior value; writing "10" succeeds and sets it
to 10. -/
theorem anxiety_sync_ratio_store_validation (d : AnxietyData) :
    anxiety_sync_ratio_store d "300" = (d, false) ∧
    (anxiety_sync_ratio_store d "300").1.sync_ratio = d.sync_ratio ∧
    anxiety_sync_ratio_store d "10" = ({ d with sync_ratio := 10 }, true) ∧
    (anxiety_sync_ratio_store d "10").1.sync_ratio = 10 := by
  have h300 : kstrtou8 "300" = none := by decide
  have h10 : kstrtou8 "10" = some 10 := by decide
  refine ⟨?_, ?_, ?_, ?_⟩ <;> simp [anxiety_sync_ratio_store, h300, h10]

/-- C6: with `sync_ratio = 0` the sync batch loop does zero work, so a
dispatch call emits no sync request and leaves the sync queue untouched;
when the async queue is non-empty it emits exactly its head. -/
theorem anxiety_ratio_zero_only_async (d : AnxietyData)
    (h : d.sync_ratio = 0) :
    (anxiety_dispatch d).emitted = d.asyncQ.take 1 ∧
    (anxiety_dispatch d).state.syncQ = d.syncQ ∧
    (anxiety_dispatch d).state.asyncQ = d.asyncQ.drop 1 ∧
    (d.asyncQ ≠ [] → (anxiety_dispatch d).emitted.length = 1) := by
  rcases Decidable.em (d.syncQ = [] ∧ d.asyncQ = []) with he | he
  · simp [anxiety_dispatch, he.1, he.2]
  · rw [anxiety_dispatch_eq_of_ne d he]
    refine ⟨by simp [h], by simp [h], by simp, fun ha => ?_⟩
    cases hA : d.asyncQ with
    | nil => exact absurd hA ha
    | cons a rest => simp [h]

/-- C6 witness at a concrete input. -/
theorem anxiety_ratio_zero_only_async_witness :
    (⟨[⟨1, Dir.sync⟩], [⟨2, Dir.async⟩], 0, 0⟩ :
        AnxietyData).sync_ratio = 0 ∧
    ((anxiety_dispatch ⟨[⟨1, Dir.sync⟩], [⟨2, Dir.async⟩], 0, 0⟩).emitted =
        ([⟨2, Dir.async⟩] : List Request).take 1 ∧
     (anxiety_dispatch ⟨[⟨1, Dir.sync⟩], [⟨2, Dir.async⟩], 0, 0⟩).state.syncQ =
        [⟨1, Dir.sync⟩] ∧
     (anxiety_dispatch ⟨[⟨1, Dir.sync⟩], [⟨2, Dir.async⟩], 0, 0⟩).state.asyncQ =
        ([⟨2, Dir.async⟩] : List Request).drop 1 ∧
     (([⟨2, Dir.async⟩] : List Request) ≠ [] →
       (anxiety_dispatch
         ⟨[⟨1, Dir.sync⟩], [⟨2, Dir.async⟩], 0, 0⟩).emitted.length = 1)) :=
  ⟨rfl, anxiety_ratio_zero_only_async
    ⟨[⟨1, Dir.sync⟩], [⟨2, Dir.async⟩], 0, 0⟩ rfl⟩

/-- C10: dispatch returns 1 exactly when some class queue is non-empty
at the start of the call; in particular with `sync_ratio = 0`, an empty
async queue and a non-empty sync queue it returns 1 while emitting
nothing and changing no state. -/
theorem anxiety_dispatch_ret_iff (d : AnxietyData) :
    ((anxiety_dispatch d).ret = 1 ↔ (d.syncQ ≠ [] ∨ d.asyncQ ≠ [])) ∧
    (d.sync_ratio = 0 → d.asyncQ = [] → d.syncQ ≠ [] →
      (anxiety_dispatch d).emitted = [] ∧
      (anxiety_dispatch d).state = d ∧
      (anxiety_dispatch d).ret = 1) := by
  rcases Decidable.em (d.syncQ = [] ∧ d.asyncQ = []) with he | he
  · constructor
    · simp [anxiety_dispatch, he.1, he.2]
    · intro _ _ hs
      exact absurd he.1 hs
  · rw [anxiety_dispatch_eq_of_ne d he]
    constructor
    · exact ⟨fun _ => not_and_or.mp he, fun _ => rfl⟩
    · intro h0 ha _
      refine ⟨by simp [h0, ha], ?_, rfl⟩
      cases d with
      | mk sq aq cs r =>
        simp_all
  
/-- C10 witness: `sync_ratio = 0`, async queue empty, sync queue
non-empty. -/
theorem anxiety_dispatch_ret_iff_witness :
    ((anxiety_dispatch ⟨[⟨1, Dir.sync⟩], [], 0, 0⟩).ret = 1 ↔
      (([⟨1, Dir.sync⟩] : List Request) ≠ [] ∨ ([] : List Request) ≠ [])) ∧
    ((⟨[⟨1, Dir.sync⟩], [], 0, 0⟩ : AnxietyData).sync_ratio = 0 →
      ([] : List Request) = [] → ([⟨1, Dir.sync⟩] : List Request) ≠ [] →
      (anxiety_dispatch ⟨[⟨1, Dir.sync⟩], [], 0, 0⟩).emitted = [] ∧
      (anxiety_dispatch ⟨[⟨1, Dir.sync⟩], [], 0, 0⟩).state =
        ⟨[⟨1, Dir.sync⟩], [], 0, 0⟩ ∧
      (anxiety_dispatch ⟨[⟨1, Dir.sync⟩], [], 0, 0⟩).ret = 1) :=
  anxiety_dispatch_ret_iff ⟨[⟨1, Dir.sync⟩], [], 0, 0⟩

/-- The early-exit sync batch loop also takes the first `n` requests and
leaves the rest. -/
theorem syncBatchEarly_eq (n : Nat) (q : List Request) :
    syncBatchEarly n q = (q.take n, q.drop n) := by
  induction n generalizing q with
  | zero => simp [syncBatchEarly]
  | succ n ih =>
    cases q with
    | nil => simp [syncBatchEarly]
    | cons r rest => simp [syncBatchEarly, ih]

/-- C9: the fixed-count sync batch loop of the source (which keeps
iterating, doing nothing, after the sync queue empties) and the
early-exit variant suggested by the spec emit the same requests in the
same order and leave the same remaining queue; consequently the two
dispatch functions agree on emitted requests, final state, and return
value at every scheduler state. -/
theorem anxiety_dispatch_early_exit_equiv :
    (∀ (n : Nat) (q : List Request), syncBatchFixed n q = syncBatchEarly n q) ∧
    (∀ d : AnxietyData, anxiety_dispatch d = anxiety_dispatch_early d) := by
  constructor
  · intro n q
    rw [syncBatchFixed_eq, syncBatchEarly_eq]
  · intro d
    simp [anxiety_dispatch, anxiety_dispatch_early,
      syncBatchFixed_eq, syncBatchEarly_eq]

/-- In a duplicate-free queue, the first index of the request stored at
position `i` is `i` itself. -/
theorem indexOf_eq_of_nodup_get {q : List Request} (hnd : q.Nodup)
    {i : Nat} (hi : i < q.length) (hget : q.get ⟨i, hi⟩ = rq) :
    q.indexOf rq = i := by
  have hmem : rq ∈ q := hget ▸ q.get_mem i hi
  have hlt : q.indexOf rq < q.length := List.indexOf_lt_length.mpr hmem
  have hidx : q.get ⟨q.indexOf rq, hlt⟩ = rq := List.indexOf_get hlt
  have : q.get ⟨q.indexOf rq, hlt⟩ = q.get ⟨i, hi⟩ := by rw [hidx, hget]
  have := (hnd.get_inj_iff).mp this
  exact congrArg Fin.val this

/-- C7: for a request `rq` stored at position `i` of its duplicate-free
class queue, `anxiety_former_request` returns none exactly when `rq` is
the head and otherwise the request immediately before it, and
`anxiety_latter_request` returns none exactly when `rq` is the tail and
otherwise the request immediately after it. -/
theorem anxiety_adjacency (d : AnxietyData) (rq : Request) (i : Nat)
    (hnd : (queueOf d rq.dir).Nodup)
    (hi : i < (queueOf d rq.dir).length)
    (hget : (queueOf d rq.dir).get ⟨i, hi⟩ = rq) :
    (anxiety_former_request d rq = none ↔ i = 0) ∧
    (∀ (hj : i - 1 < (queueOf d rq.dir).length), i ≠ 0 →
      anxiety_former_request d rq =
        some ((queueOf d rq.dir).get ⟨i - 1, hj⟩)) ∧
    (anxiety_latter_request d rq = none ↔
      i = (queueOf d rq.dir).length - 1) ∧
    (∀ (hj : i + 1 < (queueOf d rq.dir).length),
      anxiety_latter_request d rq =
        some ((queueOf d rq.dir).get ⟨i + 1, hj⟩)) := by
  have hidx : (queueOf d rq.dir).indexOf rq = i :=
    indexOf_eq_of_nodup_get hnd hi hget
  refine ⟨?_, ?_, ?_, ?_⟩
  · cases i with
    | zero => simp [anxiety_former_request, hidx]
    | succ j =>
      have hj : j < (queueOf d rq.dir).length := by omega
      simp [anxiety_former_request, hidx, List.getElem?_eq_getElem hj]
  · intro hj hne
    cases i with
    | zero => exact absurd rfl hne
    | succ j =>
      have hj2 : j < (queueOf d rq.dir).length := by omega
      simp only [anxiety_former_request, hidx,
        List.getElem?_eq_getElem hj2, Option.some.injEq]
      simp [List.get_eq_getElem]
  · rcases Decidable.em (i + 1 < (queueOf d rq.dir).length) with hlt | hge
    · have : anxiety_latter_request d rq =
          some (queueOf d rq.dir)[i + 1] := by
        simp [anxiety_latter_request, hidx, if_pos hlt,
          List.getElem?_eq_getElem hlt]
      rw [this]
      constructor
      · intro hc
        exact absurd hc (by simp)
      · intro hc
        omega
    · have : anxiety_latter_request d rq = none := by
        simp [anxiety_latter_request, hidx, if_neg hge]
      rw [this]
      constructor
      · intro _
        omega
      · intro _
        rfl
  · intro hj
    simp [anxiety_latter_request, hidx, if_pos hj,
      List.getElem?_eq_getElem hj]

/-- C7 witness: the middle request of a concrete three-request sync
queue has both neighbors; evaluating the adjacency theorem there. -/
theorem anxiety_adjacency_witness :
    ([⟨1, Dir.sync⟩, ⟨2, Dir.sync⟩, ⟨3, Dir.sync⟩] : List Request).Nodup ∧
    ((anxiety_former_request
        ⟨[⟨1, Dir.sync⟩, ⟨2, Dir.sync⟩, ⟨3, Dir.sync⟩], [], 0, 4⟩
        ⟨2, Dir.sync⟩ = none ↔ (1 : Nat) = 0) ∧
    (∀ (hj : 1 - 1 <
        ([⟨1, Dir.sync⟩, ⟨2, Dir.sync⟩, ⟨3, Dir.sync⟩] :
          List Request).length), (1 : Nat) ≠ 0 →
      anxiety_former_request
        ⟨[⟨1, Dir.sync⟩, ⟨2, Dir.sync⟩, ⟨3, Dir.sync⟩], [], 0, 4⟩
        ⟨2, Dir.sync⟩ =
        some (([⟨1, Dir.sync⟩, ⟨2, Dir.sync⟩, ⟨3, Dir.sync⟩] :
          List Request).get ⟨1 - 1, hj⟩)) ∧
    (anxiety_latter_request
        ⟨[⟨1, Dir.sync⟩, ⟨2, Dir.sync⟩, ⟨3, Dir.sync⟩], [], 0, 4⟩
        ⟨2, Dir.sync⟩ = none ↔
      (1 : Nat) = ([⟨1, Dir.sync⟩, ⟨2, Dir.sync⟩, ⟨3, Dir.sync⟩] :
          List Request).length - 1) ∧
    (∀ (hj : 1 + 1 <
        ([⟨1, Dir.sync⟩, ⟨2, Dir.sync⟩, ⟨3, Dir.sync⟩] :
          List Request).length),
      anxiety_latter_request
        ⟨[⟨1, Dir.sync⟩, ⟨2, Dir.sync⟩, ⟨3, Dir.sync⟩], [], 0, 4⟩
        ⟨2, Dir.sync⟩ =
        some (([⟨1, Dir.sync⟩, ⟨2, Dir.sync⟩, ⟨3, Dir.sync⟩] :
          List Request).get ⟨1 + 1, hj⟩))) :=
  ⟨by decide,
   anxiety_adjacency
     ⟨[⟨1, Dir.sync⟩, ⟨2, Dir.sync⟩, ⟨3, Dir.sync⟩], [], 0, 4⟩
     ⟨2, Dir.sync⟩ 1 (by decide) (by decide) (by decide)⟩

/-- Enqueuing a list of sync requests appends them, in order, at the
tail of the sync queue and touches nothing else. -/
theorem enqueueAll_sync (rs : List Request) (d : AnxietyData)
    (h : ∀ a ∈ rs, a.dir = Dir.sync) :
    enqueueAll d rs = { d with syncQ := d.syncQ ++ rs } := by
  induction rs generalizing d with
  | nil => simp [enqueueAll]
  | cons r rs ih =>
    have hr : r.dir = Dir.sync := h r (by simp)
    have hrest : ∀ a ∈ rs, a.dir = Dir.sync := fun a ha => h a (by simp [ha])
    show enqueueAll (anxiety_add_request d r) rs = _
    rw [ih _ hrest]
    simp [anxiety_add_request, hr]

/-- Enqueuing a list of async requests appends them, in order, at the
tail of the async queue and touches nothing else. -/
theorem enqueueAll_async (rs : List Request) (d : AnxietyData)
    (h : ∀ a ∈ rs, a.dir = Dir.async) :
    enqueueAll d rs = { d with asyncQ := d.asyncQ ++ rs } := by
  induction rs generalizing d with
  | nil => simp [enqueueAll]
  | cons r rs ih =>
    have hr : r.dir = Dir.async := h r (by simp)
    have hrest : ∀ a ∈ rs, a.dir = Dir.async := fun a ha => h a (by simp [ha])
    show enqueueAll (anxiety_add_request d r) rs = _
    rw [ih _ hrest]
    simp [anxiety_add_request, hr]

/-- With an empty async queue, `k` dispatch calls emit exactly the
first `ratio * k` sync requests, in queue order, and leave the rest. -/
theorem dispatchN_sync_only (k : Nat) (q : List Request)
    (cs ratio : Nat) :
    dispatchN k ⟨q, [], cs, ratio⟩ =
      (⟨q.drop (ratio * k), [], cs, ratio⟩, q.take (ratio * k)) := by
  induction k generalizing q with
  | zero => simp [dispatchN]
  | succ k ih =>
    cases hq : q with
    | nil =>
      have h0 : anxiety_dispatch ⟨[], [], cs, ratio⟩ =
          ⟨⟨[], [], cs, ratio⟩, [], 0⟩ :=
        anxiety_dispatch_empty_noop _ rfl rfl
      simp [dispatchN, h0, ih]
    | cons r rest =>
      have hne : ¬((⟨r :: rest, [], cs, ratio⟩ : AnxietyData).syncQ = [] ∧
          (⟨r :: rest, [], cs, ratio⟩ : AnxietyData).asyncQ = []) := by
        simp
      rw [dispatchN]
      rw [anxiety_dispatch_eq_of_ne _ hne]
      simp only [List.drop_nil, List.take_nil, List.append_nil, ih,
        List.drop_drop]
      have h1 : ratio * (k + 1) = ratio + ratio * k := by ring
      rw [h1, List.take_add]

/-- With an empty sync queue, `k` dispatch calls emit exactly the first
`k` async requests, in queue order, and leave the rest. -/
theorem dispatchN_async_only (k : Nat) (q : List Request)
    (cs ratio : Nat) :
    dispatchN k ⟨[], q, cs, ratio⟩ =
      (⟨[], q.drop k, cs, ratio⟩, q.take k) := by
  induction k generalizing q with
  | zero => simp [dispatchN]
  | succ k ih =>
    cases hq : q with
    | nil =>
      have h0 : anxiety_dispatch ⟨[], [], cs, ratio⟩ =
          ⟨⟨[], [], cs, ratio⟩, [], 0⟩ :=
        anxiety_dispatch_empty_noop _ rfl rfl
      simp [dispatchN, h0, ih]
    | cons r rest =>
      have hne : ¬((⟨[], r :: rest, cs, ratio⟩ : AnxietyData).syncQ = [] ∧
          (⟨[], r :: rest, cs, ratio⟩ : AnxietyData).asyncQ = []) := by
        simp
      rw [dispatchN]
      rw [anxiety_dispatch_eq_of_ne _ hne]
      simp [ih]

/-- C3: enqueue any list of requests of a single class into an empty
scheduler; every run of dispatch calls emits a prefix of that list (the
requests, in exactly enqueue order), and — provided the sync batch size
is at least 1 when the class is sync — as many calls as there were
requests emit the whole list. -/
theorem anxiety_fifo_per_class (c : Dir) (rs : List Request) (ratio : Nat)
    (hdir : ∀ a ∈ rs, a.dir = c) (hratio : c = Dir.sync → 1 ≤ ratio) :
    (∀ k, ∃ m, (dispatchN k (enqueueAll ⟨[], [], 0, ratio⟩ rs)).2 =
      rs.take m) ∧
    (dispatchN rs.length (enqueueAll ⟨[], [], 0, ratio⟩ rs)).2 = rs := by
  cases c with
  | sync =>
    have hq : enqueueAll ⟨[], [], 0, ratio⟩ rs = ⟨rs, [], 0, ratio⟩ := by
      rw [enqueueAll_sync rs _ hdir]
      simp
    rw [hq]
    constructor
    · intro k
      exact ⟨ratio * k, by rw [dispatchN_sync_only]⟩
    · rw [dispatchN_sync_only]
      have h1 : 1 ≤ ratio := hratio rfl
      have : rs.length ≤ ratio * rs.length := by
        calc rs.length = 1 * rs.length := by ring
        _ ≤ ratio * rs.length := Nat.mul_le_mul_right _ h1
      simp [List.take_of_length_le this]
  | async =>
    have hq : enqueueAll ⟨[], [], 0, ratio⟩ rs = ⟨[], rs, 0, ratio⟩ := by
      rw [enqueueAll_async rs _ hdir]
      simp
    rw [hq]
    constructor
    · intro k
      exact ⟨k, by rw [dispatchN_async_only]⟩
    · rw [dispatchN_async_only]
      simp

/-- C3 witness: two sync requests, ratio 1. -/
theorem anxiety_fifo_per_class_witness :
    (∀ a ∈ ([⟨1, Dir.sync⟩, ⟨2, Dir.sync⟩] : List Request),
      a.dir = Dir.sync) ∧
    ((∀ k, ∃ m,
      (dispatchN k (enqueueAll ⟨[], [], 0, 1⟩
        [⟨1, Dir.sync⟩, ⟨2, Dir.sync⟩])).2 =
        ([⟨1, Dir.sync⟩, ⟨2, Dir.sync⟩] : List Request).take m) ∧
    (dispatchN ([⟨1, Dir.sync⟩, ⟨2, Dir.sync⟩] : List Request).length
        (enqueueAll ⟨[], [], 0, 1⟩ [⟨1, Dir.sync⟩, ⟨2, Dir.sync⟩])).2 =
      [⟨1, Dir.sync⟩, ⟨2, Dir.sync⟩]) :=
  ⟨by decide,
   anxiety_fifo_per_class Dir.sync [⟨1, Dir.sync⟩, ⟨2, Dir.sync⟩] 1
     (by decide) (fun _ => by decide)⟩

/-- Whatever `anxiety_former_request` returns is a member of the
request's class queue. -/
theorem former_request_mem (d : AnxietyData) (rq x : Request)
    (h : anxiety_former_request d rq = some x) :
    x ∈ queueOf d rq.dir := by
  rw [anxiety_former_request] at h
  rcases hidx : (queueOf d rq.dir).indexOf rq with _ | j
  · rw [hidx] at h
    exact absurd h (by simp)
  · rw [hidx] at h
    obtain ⟨hlt, rfl⟩ := List.getElem?_eq_some.mp h
    exact List.getElem_mem _

/-- Whatever `anxiety_latter_request` returns is a member of the
request's class queue. -/
theorem latter_request_mem (d : AnxietyData) (rq x : Request)
    (h : anxiety_latter_request d rq = some x) :
    x ∈ queueOf d rq.dir := by
  rw [anxiety_latter_request] at h
  rcases Decidable.em
      ((queueOf d rq.dir).indexOf rq + 1 < (queueOf d rq.dir).length) with
    hlt | hge
  · rw [if_pos hlt] at h
    obtain ⟨hl, rfl⟩ := List.getElem?_eq_some.mp h
    exact List.getElem_mem _
  · rw [if_neg hge] at h
    exact absurd h (by simp)

/-- A request absent from both queues stays absent across one dispatch
call and is not among its emissions. -/
theorem dispatch_preserves_absence (d : AnxietyData) (r : Request)
    (hs : r ∉ d.syncQ) (ha : r ∉ d.asyncQ) :
    r ∉ (anxiety_dispatch d).state.syncQ ∧
    r ∉ (anxiety_dispatch d).state.asyncQ ∧
    r ∉ (anxiety_dispatch d).emitted := by
  rcases Decidable.em (d.syncQ = [] ∧ d.asyncQ = []) with he | he
  · rw [anxiety_dispatch_empty_noop d he.1 he.2]
    exact ⟨hs, ha, by simp⟩
  · rw [anxiety_dispatch_eq_of_ne d he]
    refine ⟨fun hc => hs (List.mem_of_mem_drop hc),
            fun hc => ha (List.mem_of_mem_drop hc),
            fun hc => ?_⟩
    rcases List.mem_append.mp hc with h1 | h1
    · exact hs (List.mem_of_mem_take h1)
    · exact ha (List.mem_of_mem_take h1)

/-- A request absent from both queues stays absent across any operation
that is not its own re-enqueue, and is not among that operation's
emissions. -/
theorem stepOp_preserves_absence (d : AnxietyData) (r : Request)
    (op : SchedOp) (hop : op ≠ SchedOp.add r)
    (hs : r ∉ d.syncQ) (ha : r ∉ d.asyncQ) :
    r ∉ (stepOp d op).1.syncQ ∧ r ∉ (stepOp d op).1.asyncQ ∧
    r ∉ (stepOp d op).2 := by
  cases op with
  | add rq =>
    have hne : rq ≠ r := fun hc => hop (by rw [hc])
    cases hdir : rq.dir with
    | sync =>
      refine ⟨fun hc => ?_, fun hc => ha ?_, by simp [stepOp]⟩
      · rcases (by simpa [stepOp, anxiety_add_request, hdir] using hc :
            r ∈ d.syncQ ∨ r = rq) with h1 | h1
        · exact hs h1
        · exact hne h1.symm
      · simpa [stepOp, anxiety_add_request, hdir] using hc
    | async =>
      refine ⟨fun hc => hs ?_, fun hc => ?_, by simp [stepOp]⟩
      · simpa [stepOp, anxiety_add_request, hdir] using hc
      · rcases (by simpa [stepOp, anxiety_add_request, hdir] using hc :
            r ∈ d.asyncQ ∨ r = rq) with h1 | h1
        · exact ha h1
        · exact hne h1.symm
  | dispatchOne =>
    exact dispatch_preserves_absence d r hs ha
  | merge rq =>
    refine ⟨fun hc => hs ?_, fun hc => ha ?_, by simp [stepOp]⟩
    · exact List.mem_of_mem_erase
        (by simpa [stepOp, anxiety_merged_requests] using hc)
    · exact List.mem_of_mem_erase
        (by simpa [stepOp, anxiety_merged_requests] using hc)
  | store s =>
    refine ⟨?_, ?_, by simp [stepOp]⟩ <;>
      simp only [stepOp, anxiety_sync_ratio_store] <;>
      rcases kstrtou8 s with _ | v <;> simpa

/-- A request absent from both queues stays absent across any operation
sequence that never re-enqueues it, and never appears among the
emissions. -/
theorem runOps_preserves_absence (ops : List SchedOp) (d : AnxietyData)
    (r : Request) (hops : ∀ op ∈ ops, op ≠ SchedOp.add r)
    (hs : r ∉ d.syncQ) (ha : r ∉ d.asyncQ) :
    r ∉ (runOps d ops).1.syncQ ∧ r ∉ (runOps d ops).1.asyncQ ∧
    r ∉ (runOps d ops).2 := by
  induction ops generalizing d with
  | nil => exact ⟨hs, ha, by simp [runOps]⟩
  | cons op ops ih =>
    have hop : op ≠ SchedOp.add r := hops op (by simp)
    have hrest : ∀ o ∈ ops, o ≠ SchedOp.add r :=
      fun o ho => hops o (by simp [ho])
    obtain ⟨h1, h2, h3⟩ := stepOp_preserves_absence d r op hop hs ha
    obtain ⟨g1, g2, g3⟩ := ih (stepOp d op).1 hrest h1 h2
    refine ⟨g1, g2, fun hc => ?_⟩
    rcases List.mem_append.mp (by simpa [runOps] using hc) with hm | hm
    · exact h3 hm
    · exact g3 hm

/-- C8: if `r` occurs at most once in each class queue (the linked-list
invariant), then after `anxiety_merged_requests` removes it, `r` is a
member of neither queue, is never emitted by any later operation
sequence that does not re-enqueue it, and is never returned by
`anxiety_former_request` or `anxiety_latter_request` on any request. -/
theorem anxiety_merge_remove_visibility (d : AnxietyData) (r : Request)
    (hs1 : d.syncQ.count r ≤ 1) (ha1 : d.asyncQ.count r ≤ 1)
    (ops : List SchedOp) (hops : ∀ op ∈ ops, op ≠ SchedOp.add r) :
    (r ∉ (anxiety_merged_requests d r).syncQ ∧
     r ∉ (anxiety_merged_requests d r).asyncQ) ∧
    (r ∉ (runOps (anxiety_merged_requests d r) ops).1.syncQ ∧
     r ∉ (runOps (anxiety_merged_requests d r) ops).1.asyncQ) ∧
    r ∉ (runOps (anxiety_merged_requests d r) ops).2 ∧
    (∀ rq : Request,
      anxiety_former_request (runOps (anxiety_merged_requests d r) ops).1
        rq ≠ some r ∧
      anxiety_latter_request (runOps (anxiety_merged_requests d r) ops).1
        rq ≠ some r) := by
  have hs0 : r ∉ (anxiety_merged_requests d r).syncQ := by
    have := List.count_erase_self r d.syncQ
    have hz : (d.syncQ.erase r).count r = 0 := by omega
    exact List.count_eq_zero.mp (by simpa [anxiety_merged_requests] using hz)
  have ha0 : r ∉ (anxiety_merged_requests d r).asyncQ := by
    have := List.count_erase_self r d.asyncQ
    have hz : (d.asyncQ.erase r).count r = 0 := by omega
    exact List.count_eq_zero.mp (by simpa [anxiety_merged_requests] using hz)
  obtain ⟨g1, g2, g3⟩ :=
    runOps_preserves_absence ops (anxiety_merged_requests d r) r hops hs0 ha0
  refine ⟨⟨hs0, ha0⟩, ⟨g1, g2⟩, g3, fun rq => ⟨fun hc => ?_, fun hc => ?_⟩⟩
  · have hmem := former_request_mem _ rq r hc
    cases hdir : rq.dir with
    | sync => exact g1 (by simpa [queueOf, hdir] using hmem)
    | async => exact g2 (by simpa [queueOf, hdir] using hmem)
  · have hmem := latter_request_mem _ rq r hc
    cases hdir : rq.dir with
    | sync => exact g1 (by simpa [queueOf, hdir] using hmem)
    | async => exact g2 (by simpa [queueOf, hdir] using hmem)

/-- C8 witness: remove the middle sync request, then dispatch, enqueue
another request, and merge-remove another; the removed request never
reappears. -/
theorem anxiety_merge_remove_visibility_witness :
    (([⟨1, Dir.sync⟩, ⟨2, Dir.sync⟩, ⟨3, Dir.sync⟩] :
        List Request).count ⟨2, Dir.sync⟩ ≤ 1 ∧
     ([⟨4, Dir.async⟩] : List Request).count ⟨2, Dir.sync⟩ ≤ 1 ∧
     (∀ op ∈ ([SchedOp.dispatchOne, SchedOp.add ⟨5, Dir.sync⟩,
         SchedOp.merge ⟨1, Dir.sync⟩] : List SchedOp),
       op ≠ SchedOp.add ⟨2, Dir.sync⟩)) ∧
    ((⟨2, Dir.sync⟩ : Request) ∉
        (anxiety_merged_requests
          ⟨[⟨1, Dir.sync⟩, ⟨2, Dir.sync⟩, ⟨3, Dir.sync⟩],
           [⟨4, Dir.async⟩], 0, 1⟩ ⟨2, Dir.sync⟩).syncQ ∧
     (⟨2, Dir.sync⟩ : Request) ∉
        (anxiety_merged_requests
          ⟨[⟨1, Dir.sync⟩, ⟨2, Dir.sync⟩, ⟨3, Dir.sync⟩],
           [⟨4, Dir.async⟩], 0, 1⟩ ⟨2, Dir.sync⟩).asyncQ) ∧
    ((⟨2, Dir.sync⟩ : Request) ∉
        (runOps (anxiety_merged_requests
          ⟨[⟨1, Dir.sync⟩, ⟨2, Dir.sync⟩, ⟨3, Dir.sync⟩],
           [⟨4, Dir.async⟩], 0, 1⟩ ⟨2, Dir.sync⟩)
          [SchedOp.dispatchOne, SchedOp.add ⟨5, Dir.sync⟩,
           SchedOp.merge ⟨1, Dir.sync⟩]).1.syncQ ∧
     (⟨2, Dir.sync⟩ : Request) ∉
        (runOps (anxiety_merged_requests
          ⟨[⟨1, Dir.sync⟩, ⟨2, Dir.sync⟩, ⟨3, Dir.sync⟩],
           [⟨4, Dir.async⟩], 0, 1⟩ ⟨2, Dir.sync⟩)
          [SchedOp.dispatchOne, SchedOp.add ⟨5, Dir.sync⟩,
           SchedOp.merge ⟨1, Dir.sync⟩]).1.asyncQ) ∧
    (⟨2, Dir.sync⟩ : Request) ∉
        (runOps (anxiety_merged_requests
          ⟨[⟨1, Dir.sync⟩, ⟨2, Dir.sync⟩, ⟨3, Dir.sync⟩],
           [⟨4, Dir.async⟩], 0, 1⟩ ⟨2, Dir.sync⟩)
          [SchedOp.dispatchOne, SchedOp.add ⟨5, Dir.sync⟩,
           SchedOp.merge ⟨1, Dir.sync⟩]).2 ∧
    (∀ rq : Request,
      anxiety_former_request
        (runOps (anxiety_merged_requests
          ⟨[⟨1, Dir.sync⟩, ⟨2, Dir.sync⟩, ⟨3, Dir.sync⟩],
           [⟨4, Dir.async⟩], 0, 1⟩ ⟨2, Dir.sync⟩)
          [SchedOp.dispatchOne, SchedOp.add ⟨5, Dir.sync⟩,
           SchedOp.merge ⟨1, Dir.sync⟩]).1 rq ≠ some ⟨2, Dir.sync⟩ ∧
      anxiety_latter_request
        (runOps (anxiety_merged_requests
          ⟨[⟨1, Dir.sync⟩, ⟨2, Dir.sync⟩, ⟨3, Dir.sync⟩],
           [⟨4, Dir.async⟩], 0, 1⟩ ⟨2, Dir.sync⟩)
          [SchedOp.dispatchOne, SchedOp.add ⟨5, Dir.sync⟩,
           SchedOp.merge ⟨1, Dir.sync⟩]).1 rq ≠ some ⟨2, Dir.sync⟩) :=
  ⟨⟨by decide, by decide, by decide⟩,
   anxiety_merge_remove_visibility
     ⟨[⟨1, Dir.sync⟩, ⟨2, Dir.sync⟩, ⟨3, Dir.sync⟩], [⟨4, Dir.async⟩], 0, 1⟩
     ⟨2, Dir.sync⟩ (by decide) (by decide)
     [SchedOp.dispatchOne, SchedOp.add ⟨5, Dir.sync⟩,
      SchedOp.merge ⟨1, Dir.sync⟩] (by decide)⟩
